import Mathlib

set_option maxHeartbeats 1000000

namespace BSN

/-- The DAG handed to the PathRecorder constructor, already reduced to the
node-index view built in `__init__`: nodes are the dense indices `0..n-1`
assigned along a topological sort, and `preds i` lists the indices of the
graph predecessors of node `i` (the `node_index` images of
`graph.predecessors(node)`). -/
structure Graph where
  n : Nat
  preds : Nat → List Nat

/-- The allocated per-iteration buffers of the tracker: the batch width `b`
inferred from the first decision, the `n × n × b` active tensor and the
`n × b` sampling tensor.  Entries are exact rationals standing for the
float values; indices outside the real extent read as the fill value. -/
structure Tensors where
  b : Nat
  active : Nat → Nat → Nat → ℚ
  sampling : Nat → Nat → ℚ

/-- Mutable state of a `PathRecorder`: the running estimate
(`global_sampling`, unset before the first statistics update), the update
counter `n_samplings`, and the iteration buffers.  `tensors = none`
corresponds to `active is None` (never started); `tensors = some none` to
the freshly reset empty `torch.Tensor()`; `tensors = some (some ts)` to the
allocated buffers. -/
structure PRState where
  global_sampling : Option (Nat → ℚ)
  n_samplings : Nat
  tensors : Option (Option Tensors)

/-- State right after `__init__`. -/
def initState : PRState := ⟨none, 0, none⟩

/-- The runtime failures the methods can raise: `notInitialized` is the
`RuntimeError` of `add_sampling`, `invalidShape` its `ValueError`,
`keyError` an unknown node in a `node_index` lookup, `sizeMismatch` a
batch-width mismatch on a row assignment, `indexError` indexing the empty
tensor, `typeError` indexing `None`. -/
inductive Err where
  | notInitialized
  | invalidShape
  | keyError
  | sizeMismatch
  | indexError
  | typeError
deriving DecidableEq

/-- A numeric input tensor as passed to `add_sampling`: a shape and the
flat row-major data. -/
structure PyTensor where
  shape : List Nat
  data : List ℚ

/-- Entry `k` of the flat decision vector obtained from `d`. -/
def dVec (d : PyTensor) (k : Nat) : ℚ := d.data.getD k 0

/-- Shape after `squeeze()` (drop every size-1 dimension) followed by the
scalar promotion `unsqueeze_(0)` when nothing is left. -/
def squeezedShape (sh : List Nat) : List Nat :=
  if sh.filter (fun m => m != 1) = [] then [1] else sh.filter (fun m => m != 1)

/-- Maximum of `f 0, ..., f m`. -/
def maxOverAux (f : Nat → ℚ) : Nat → ℚ
  | 0 => f 0
  | m + 1 => max (maxOverAux f m) (f (m + 1))

/-- `incoming.view(-1, b).max(0)[0]` at one batch element: the maximum of
`f 0, ..., f (n-1)` over the node dimension (for `n ≥ 1`). -/
def maxOver (n : Nat) (f : Nat → ℚ) : ℚ := maxOverAux f (n - 1)

/-- `used_nodes.mean(1)`: mean over the batch dimension of an `n × b`
tensor, at node `i`. -/
def meanUsage (b : Nat) (u : Nat → Nat → ℚ) (i : Nat) : ℚ :=
  (((List.range b).map (fun k => u i k)).sum) / (b : ℚ)

/-- `update_global_sampling`: bump the counter, then either initialize the
estimate with the batch mean or fold it in with
`estimate += (1/count) * (mean - estimate)`. -/
def update_global_sampling (b : Nat) (u : Nat → Nat → ℚ) (s : PRState) : PRState :=
  { s with
    n_samplings := s.n_samplings + 1
    global_sampling :=
      match s.global_sampling with
      | none => some (fun i => meanUsage b u i)
      | some gl =>
          some (fun i => gl i + (1 / ((s.n_samplings : ℚ) + 1)) * (meanUsage b u i - gl i)) }

/-- `new_iteration`: when a default output is configured and `active` is
not `None`, read that node's pruned row and feed it to
`update_global_sampling` (indexing the empty tensor raises), then reset
both buffers to the empty tensor. -/
def new_iteration (g : Graph) (default_out : Option Nat) (s : PRState) :
    Except Err PRState :=
  match default_out with
  | none => .ok { s with tensors := some none }
  | some out =>
      match s.tensors with
      | none => .ok { s with tensors := some none }
      | some none =>
          if g.n ≤ out then .error .keyError else .error .indexError
      | some (some ts) =>
          if g.n ≤ out then .error .keyError
          else
            .ok { update_global_sampling ts.b (fun j k => ts.active out j k) s with
                    tensors := some none }

/-- The `incoming` row of `add_sampling` after the source-node seeding and
the predecessor-accumulation loop, starting from the current active row of
`node`.  A predecessor equal to `node` itself aliases the row being
mutated, so its current value is added in that case. -/
def incomingAfterPreds (g : Graph) (node : Nat) (dv : Nat → ℚ)
    (a : Nat → Nat → Nat → ℚ) : Nat → Nat → ℚ :=
  (g.preds node).foldl
    (fun inc p => fun j k => inc j k + (if p = node then inc j k else a p j k))
    (if g.preds node = [] then
      (fun j k => a node j k + (if j = node then dv k else 0))
     else (fun j k => a node j k))

/-- `has_outputs`: 1 where the node has some live incoming support and its
own decision is non-zero, else 0. -/
def hasOutputs (g : Graph) (node : Nat) (dv : Nat → ℚ)
    (a : Nat → Nat → Nat → ℚ) : Nat → ℚ :=
  fun k =>
    if maxOver g.n (fun j => incomingAfterPreds g node dv a j k) * dv k ≠ 0 then 1 else 0

/-- The boolean-cast row written back into the active tensor: after the
self-entry bump `incoming[i] += decision` and the broadcast multiply by
`has_outputs`, each entry becomes 1.0 where non-zero and 0.0 elsewhere. -/
def finalRow (g : Graph) (node : Nat) (dv : Nat → ℚ)
    (a : Nat → Nat → Nat → ℚ) : Nat → Nat → ℚ :=
  fun j k =>
    if (incomingAfterPreds g node dv a j k + (if j = node then dv k else 0)) *
        hasOutputs g node dv a k ≠ 0 then 1 else 0

/-- The buffer update performed by a successful `add_sampling`: store the
decision vector into the node's sampling row and the recomputed boolean
row into its active row. -/
def sampleCore (g : Graph) (node : Nat) (dv : Nat → ℚ) (ts : Tensors) : Tensors :=
  ⟨ts.b,
   fun i j k => if i = node then finalRow g node dv ts.active j k else ts.active i j k,
   fun i k => if i = node then dv k else ts.sampling i k⟩

/-- The buffers `add_sampling` works on: the allocated ones, or freshly
zero-filled buffers of batch width `b` when the tensors are still empty
(the `resize_().zero_()` branch). -/
def curTensors (s : PRState) (b : Nat) : Tensors :=
  match s.tensors with
  | some (some ts) => ts
  | _ => ⟨b, fun _ _ _ => 0, fun _ _ => 0⟩

/-- `add_sampling`: squeeze and promote the decision, raise
`notInitialized` when no iteration ever started, `invalidShape` when more
than one non-trivial dimension remains, allocate on the first decision,
then run the reachability update on the node's rows. -/
def add_sampling (g : Graph) (node : Nat) (d : PyTensor) (s : PRState) :
    Except Err PRState :=
  match s.tensors with
  | none => .error .notInitialized
  | some t? =>
      if (squeezedShape d.shape).length ≠ 1 then .error .invalidShape
      else
        if g.n ≤ node then .error .keyError
        else
          match t? with
          | none =>
              .ok { s with
                      tensors := some (some (sampleCore g node (dVec d)
                        ⟨(squeezedShape d.shape).headD 0, fun _ _ _ => 0, fun _ _ => 0⟩)) }
          | some ts =>
              if ts.b ≠ (squeezedShape d.shape).headD 0 then .error .sizeMismatch
              else .ok { s with tensors := some (some (sampleCore g node (dVec d) ts)) }

/-- `get_pruned_architecture`: the active row of the output node, or the
failure indexing `None` / the empty tensor would raise.  Pure read. -/
def prunedRowE (g : Graph) (out : Nat) (s : PRState) : Except Err (Nat → Nat → ℚ) :=
  if g.n ≤ out then .error .keyError
  else
    match s.tensors with
    | none => .error .typeError
    | some none => .error .indexError
    | some (some ts) => .ok (fun j k => ts.active out j k)

/-- `get_pruned_architecture` with the (unchanged) state threaded through,
making the absence of mutation explicit. -/
def get_pruned_architecture (g : Graph) (out : Nat) (s : PRState) :
    Except Err (Nat → Nat → ℚ) × PRState :=
  (prunedRowE g out s, s)

/-- `get_sampled_architectures`: returns `self.sampling` as-is (`None`,
the empty tensor, or the allocated tensor), with the unchanged state
threaded through. -/
def get_sampled_architectures (s : PRState) :
    Option (Option (Nat → Nat → ℚ)) × PRState :=
  (s.tensors.map (fun t? => t?.map (fun ts => fun i k => ts.sampling i k)), s)

/-- `get_graph_paths`: per batch element, the list of nodes whose pruned
mask equals 1 and the node-to-raw-sampling mapping; as a side effect the
current pruned tensor is fed to `update_global_sampling`. -/
def get_graph_paths (g : Graph) (out : Nat) (s : PRState) :
    Except Err ((List (List Nat) × List (List (Nat × ℚ))) × PRState) :=
  if g.n ≤ out then .error .keyError
  else
    match s.tensors with
    | none => .error .typeError
    | some none => .error .indexError
    | some (some ts) =>
        .ok (((List.range ts.b).map
                (fun k => (List.range g.n).filter (fun j => ts.active out j k == 1)),
              (List.range ts.b).map
                (fun k => (List.range g.n).map (fun j => (j, ts.sampling j k)))),
             update_global_sampling ts.b (fun j k => ts.active out j k) s)

/-- The running estimate read at node `i` (0 when still unset). -/
def estimateAt (s : PRState) (i : Nat) : ℚ :=
  match s.global_sampling with
  | none => 0
  | some gl => gl i

/-- Active tensor entry of a state (0 outside an allocated tensor). -/
def activeEntry (s : PRState) (i j k : Nat) : ℚ :=
  match s.tensors with
  | some (some ts) => ts.active i j k
  | _ => 0

/-- Sampling tensor entry of a state (0 outside an allocated tensor). -/
def samplingEntry (s : PRState) (i k : Nat) : ℚ :=
  match s.tensors with
  | some (some ts) => ts.sampling i k
  | _ => 0

/-- Batch width of the allocated buffers (0 when not allocated). -/
def widthOf (s : PRState) : Nat :=
  match s.tensors with
  | some (some ts) => ts.b
  | _ => 0

/-- Whether `start_iteration` has ever run (`active` is not `None`). -/
def initializedB (s : PRState) : Bool :=
  match s.tensors with
  | none => false
  | some _ => true

/-- Whether the buffers are still the empty tensors of a fresh iteration. -/
def isEmptyT (s : PRState) : Bool :=
  match s.tensors with
  | some none => true
  | _ => false

/-- Whether the buffers are allocated. -/
def isAllocated (s : PRState) : Bool :=
  match s.tensors with
  | some (some _) => true
  | _ => false

/-- Whether the buffers accept a decision of batch width `b`: any width on
the first decision of an iteration, the allocated width afterwards. -/
def widthCompatB (s : PRState) (b : Nat) : Bool :=
  match s.tensors with
  | none => false
  | some none => true
  | some (some ts) => ts.b == b

/-- Success projection of a state-valued call. -/
def isOkE (e : Except Err PRState) : Bool :=
  match e with
  | .ok _ => true
  | .error _ => false

/-- The state a successful state-valued call produced (initState on error). -/
def okState (e : Except Err PRState) : PRState :=
  match e with
  | .ok s => s
  | .error _ => initState

/-- Success projection of a `get_graph_paths` call. -/
def isOkGP (e : Except Err ((List (List Nat) × List (List (Nat × ℚ))) × PRState)) : Bool :=
  match e with
  | .ok _ => true
  | .error _ => false

/-- The state a successful `get_graph_paths` call left behind. -/
def gpState (e : Except Err ((List (List Nat) × List (List (Nat × ℚ))) × PRState)) : PRState :=
  match e with
  | .ok r => r.2
  | .error _ => initState

/-- The two result lists of a successful `get_graph_paths` call. -/
def gpLists (e : Except Err ((List (List Nat) × List (List (Nat × ℚ))) × PRState)) :
    List (List Nat) × List (List (Nat × ℚ)) :=
  match e with
  | .ok r => r.1
  | .error _ => ([], [])

/-- One statistics update step, as folded over a run of iterations. -/
def statStep (s : PRState) (p : Nat × (Nat → Nat → ℚ)) : PRState :=
  update_global_sampling p.1 p.2 s

/-- Error projection of a state-valued call. -/
def errOf (e : Except Err PRState) : Option Err :=
  match e with
  | .ok _ => none
  | .error x => some x

/-- Entry `(j, k)` of the pruned architecture returned for `out` (0 when
the call fails). -/
def prunedValAt (g : Graph) (out : Nat) (s : PRState) (j k : Nat) : ℚ :=
  match prunedRowE g out s with
  | .ok r => r j k
  | .error _ => 0

/-- The two-node chain graph 0 → 1 used in the concrete scenarios. -/
def g2 : Graph := ⟨2, fun i => if i = 1 then [0] else []⟩

/-- The three-node chain graph 0 → 1 → 2 of the end-to-end scenarios
(A = 0, B = 1, C = 2). -/
def g3 : Graph := ⟨3, fun i => if i = 1 then [0] else if i = 2 then [1] else []⟩

/-- The state of the end-to-end scenario: one iteration on the chain
0 → 1 → 2 with decisions `[1]`, `[1]`, `[1]` recorded in order. -/
def chainState : PRState :=
  okState (add_sampling g3 2 ⟨[1], [1]⟩
    (okState (add_sampling g3 1 ⟨[1], [1]⟩
      (okState (add_sampling g3 0 ⟨[1], [1]⟩
        (okState (new_iteration g3 (some 2) initState)))))))

/-- A state on the chain 0 → 1 in which node 0 was recorded on, node 1
recorded on, and node 0 then re-recorded off: node 0's active row is all
zero again while node 1's active row still carries the stale support. -/
def doubleRecState : PRState :=
  okState (add_sampling g2 0 ⟨[1], [0]⟩
    (okState (add_sampling g2 1 ⟨[1], [1]⟩
      (okState (add_sampling g2 0 ⟨[1], [1]⟩
        (okState (new_iteration g2 none initState)))))))

/-- The tracker states reachable through the public mutating API from a
freshly constructed tracker over graph `g` with default output `dflt`. -/
inductive Reachable (g : Graph) (dflt : Option Nat) : PRState → Prop where
  | init : Reachable g dflt initState
  | step_new (s s' : PRState) : Reachable g dflt s →
      new_iteration g dflt s = .ok s' → Reachable g dflt s'
  | step_add (s s' : PRState) (node : Nat) (d : PyTensor) : Reachable g dflt s →
      add_sampling g node d s = .ok s' → Reachable g dflt s'
  | step_paths (s : PRState) (out : Nat)
      (r : (List (List Nat) × List (List (Nat × ℚ))) × PRState) : Reachable g dflt s →
      get_graph_paths g out s = .ok r → Reachable g dflt r.2

/-- Every in-range entry of the active tensor is the float 0.0 or 1.0. -/
def ActiveBool (g : Graph) (s : PRState) : Prop :=
  ∀ i < g.n, ∀ j < g.n, ∀ k < widthOf s,
    activeEntry s i j k = 0 ∨ activeEntry s i j k = 1

/-- Folding further statistics updates onto an already-initialized estimate
keeps it equal to the weighted mean of everything folded in so far. -/
theorem fold_estimate (i : Nat) (L : List (Nat × (Nat → Nat → ℚ))) :
    ∀ s : PRState, s.global_sampling.isSome = true → 1 ≤ s.n_samplings →
      estimateAt (L.foldl statStep s) i
        = ((s.n_samplings : ℚ) * estimateAt s i
            + (L.map (fun p => meanUsage p.1 p.2 i)).sum)
          / ((s.n_samplings : ℚ) + (L.length : ℚ)) ∧
      (L.foldl statStep s).n_samplings = s.n_samplings + L.length := by
  induction L with
  | nil =>
      intro s hs ht
      have hne : ((s.n_samplings : ℚ)) ≠ 0 := Nat.cast_ne_zero.mpr (by omega)
      refine ⟨?_, rfl⟩
      simp only [List.foldl_nil, List.map_nil, List.sum_nil, List.length_nil,
        Nat.cast_zero, add_zero]
      exact (mul_div_cancel_left₀ (estimateAt s i) hne).symm
  | cons p rest ih =>
      intro s hs ht
      obtain ⟨gl, hgl⟩ := Option.isSome_iff_exists.mp hs
      have hstep : statStep s p
          = { s with
                n_samplings := s.n_samplings + 1
                global_sampling :=
                  some (fun j => gl j
                    + (1 / ((s.n_samplings : ℚ) + 1)) * (meanUsage p.1 p.2 j - gl j)) } := by
        simp only [statStep, update_global_sampling, hgl]
      have h1 : (statStep s p).global_sampling.isSome = true := by
        rw [hstep]
        rfl
      have h2 : 1 ≤ (statStep s p).n_samplings := by
        rw [hstep]
        exact Nat.le_add_left 1 s.n_samplings
      obtain ⟨hihE, hihC⟩ := ih (statStep s p) h1 h2
      have hcount : (statStep s p).n_samplings = s.n_samplings + 1 := by rw [hstep]
      constructor
      · rw [List.foldl_cons, hihE, hcount]
        have hE1 : estimateAt (statStep s p) i
            = gl i + (1 / ((s.n_samplings : ℚ) + 1)) * (meanUsage p.1 p.2 i - gl i) := by
          rw [hstep]
          rfl
        have hE : estimateAt s i = gl i := by
          simp only [estimateAt, hgl]
        rw [hE1, hE]
        have hne1 : ((s.n_samplings : ℚ) + 1) ≠ 0 := by positivity
        simp only [List.map_cons, List.sum_cons, List.length_cons]
        push_cast
        field_simp
        ring
      · rw [List.foldl_cons, hihC, hcount, List.length_cons]
        omega

/-- C1: for every sequence of `t ≥ 1` completed statistics updates with
per-iteration batch-mean usage vectors `m_1, ..., m_t`, the global sampling
estimate after the `t`-th update equals the arithmetic mean
`(m_1 + ... + m_t) / t` at every node, in exact rational arithmetic, and
the update counter equals `t`. -/
theorem running_mean_correct (L : List (Nat × (Nat → Nat → ℚ))) (hL : L ≠ [])
    (i : Nat) :
    estimateAt (L.foldl statStep initState) i
      = ((L.map (fun p => meanUsage p.1 p.2 i)).sum) / (L.length : ℚ) ∧
    (L.foldl statStep initState).n_samplings = L.length := by
  match L with
  | [] => exact absurd rfl hL
  | p :: rest =>
      have hstep : statStep initState p
          = { global_sampling := some (fun j => meanUsage p.1 p.2 j)
              n_samplings := 1
              tensors := none } := by
        simp only [statStep, update_global_sampling, initState]
      have h1 : (statStep initState p).global_sampling.isSome = true := by
        rw [hstep]
        rfl
      have h2 : 1 ≤ (statStep initState p).n_samplings := by
        rw [hstep]
      obtain ⟨hE, hC⟩ := fold_estimate i rest (statStep initState p) h1 h2
      have hcount : (statStep initState p).n_samplings = 1 := by rw [hstep]
      have hest : estimateAt (statStep initState p) i = meanUsage p.1 p.2 i := by
        rw [hstep]
        rfl
      constructor
      · rw [List.foldl_cons, hE, hcount, hest]
        simp only [List.map_cons, List.sum_cons, List.length_cons]
        push_cast
        ring_nf
      · rw [List.foldl_cons, hC, hcount, List.length_cons]
        omega

/-- Witness for C1 at the concrete two-update run with batch means 1 and 0:
the resulting estimate is the arithmetic mean 1/2. -/
theorem running_mean_correct_witness :
    ([((1 : Nat), fun _ _ => (1 : ℚ)), (1, fun _ _ => 0)]
        : List (Nat × (Nat → Nat → ℚ))) ≠ [] ∧
    estimateAt
      (([((1 : Nat), fun _ _ => (1 : ℚ)), (1, fun _ _ => 0)]
          : List (Nat × (Nat → Nat → ℚ))).foldl statStep initState) 0 = 1 / 2 := by
  refine ⟨List.cons_ne_nil _ _, ?_⟩
  have h := running_mean_correct
    ([((1 : Nat), fun _ _ => (1 : ℚ)), (1, fun _ _ => 0)]
        : List (Nat × (Nat → Nat → ℚ))) (List.cons_ne_nil _ _) 0
  rw [h.1]
  norm_num [meanUsage]

/-- Each of `f 0, ..., f m` is bounded by their maximum. -/
theorem le_maxOverAux (f : Nat → ℚ) (m : Nat) :
    ∀ j ≤ m, f j ≤ maxOverAux f m := by
  induction m with
  | zero =>
      intro j hj
      interval_cases j
      exact le_refl _
  | succ m ih =>
      intro j hj
      rcases Nat.lt_succ_iff_lt_or_eq.mp (Nat.lt_succ_of_le hj) with h | h
      · exact le_trans (ih j (Nat.lt_succ_iff.mp h)) (le_max_left _ _)
      · rw [h, maxOverAux]
        exact le_max_right _ _

/-- The maximum of `f 0, ..., f m` is zero when every entry is. -/
theorem maxOverAux_eq_zero (f : Nat → ℚ) (m : Nat)
    (h : ∀ j ≤ m, f j = 0) : maxOverAux f m = 0 := by
  induction m with
  | zero => exact h 0 (le_refl 0)
  | succ m ih =>
      rw [maxOverAux, ih (fun j hj => h j (Nat.le_succ_of_le hj)),
        h (m + 1) (le_refl _)]
      exact max_self 0

/-- The predecessor-accumulation loop keeps an entry that starts at zero
and only ever has zero predecessor entries added to it at zero. -/
theorem foldl_preds_zero (node : Nat) (a : Nat → Nat → Nat → ℚ) (j k : Nat) :
    ∀ (ps : List Nat) (inc : Nat → Nat → ℚ),
      inc j k = 0 → (∀ p ∈ ps, a p j k = 0) →
      (ps.foldl
        (fun inc p => fun j k => inc j k + (if p = node then inc j k else a p j k))
        inc) j k = 0 := by
  intro ps
  induction ps with
  | nil => intro inc hinc _; exact hinc
  | cons p rest ih =>
      intro inc hinc hps
      rw [List.foldl_cons]
      refine ih _ ?_ (fun q hq => hps q (List.mem_cons_of_mem p hq))
      by_cases hp : p = node
      · rw [if_pos hp, hinc, add_zero]
      · rw [if_neg hp, hinc, hps p (List.mem_cons_self p rest), add_zero]

/-- For a source node the incoming row is its own current row plus the
decision on the diagonal entry. -/
theorem incomingAfterPreds_source (g : Graph) (node : Nat) (dv : Nat → ℚ)
    (a : Nat → Nat → Nat → ℚ) (hpred : g.preds node = []) (j k : Nat) :
    incomingAfterPreds g node dv a j k
      = a node j k + (if j = node then dv k else 0) := by
  rw [incomingAfterPreds, hpred, if_pos rfl, List.foldl_nil]

/-- When the node's own entry and every predecessor entry vanish at
position `(j, k)`, so does the incoming entry there. -/
theorem incomingAfterPreds_zero (g : Graph) (node : Nat) (dv : Nat → ℚ)
    (a : Nat → Nat → Nat → ℚ) (j k : Nat)
    (hpred : g.preds node ≠ [])
    (hself : a node j k = 0)
    (hpreds : ∀ p ∈ g.preds node, a p j k = 0) :
    incomingAfterPreds g node dv a j k = 0 := by
  rw [incomingAfterPreds, if_neg hpred]
  exact foldl_preds_zero node a j k (g.preds node) _ hself hpreds

/-- The buffers `add_sampling` works on agree with the state's active
entries once an iteration has started. -/
theorem curTensors_active (s : PRState) (b : Nat) (h : initializedB s = true)
    (i j k : Nat) : (curTensors s b).active i j k = activeEntry s i j k := by
  cases hts : s.tensors with
  | none =>
      simp only [initializedB, hts] at h
      exact Bool.noConfusion h
  | some t? =>
      cases t? with
      | none => simp only [curTensors, activeEntry, hts]
      | some ts => simp only [curTensors, activeEntry, hts]

/-- A width-compatible state has been started. -/
theorem initializedB_of_widthCompatB (s : PRState) (b : Nat)
    (hw : widthCompatB s b = true) : initializedB s = true := by
  cases hts : s.tensors with
  | none =>
      simp only [widthCompatB, hts] at hw
      exact Bool.noConfusion hw
  | some t? => simp only [initializedB, hts]

/-- Under the squeeze, bounds and width checks, `add_sampling` succeeds and
performs exactly the `sampleCore` buffer update. -/
theorem add_sampling_ok (g : Graph) (node : Nat) (d : PyTensor) (s : PRState)
    (b : Nat) (hsh : squeezedShape d.shape = [b]) (hnode : node < g.n)
    (hw : widthCompatB s b = true) :
    add_sampling g node d s
      = .ok { s with
                tensors := some (some (sampleCore g node (dVec d) (curTensors s b))) } := by
  have hlen : (squeezedShape d.shape).length = 1 := by rw [hsh]; rfl
  have hhead : (squeezedShape d.shape).headD 0 = b := by rw [hsh]; rfl
  cases hts : s.tensors with
  | none =>
      simp only [widthCompatB, hts] at hw
      exact Bool.noConfusion hw
  | some t? =>
      cases t? with
      | none =>
          simp only [add_sampling, hts, hlen, hhead]
          rw [if_neg (fun h => h rfl : ¬(1 : Nat) ≠ 1),
            if_neg (Nat.not_le.mpr hnode)]
          simp only [curTensors, hts]
      | some ts =>
          have hb : ts.b = b := by
            simp only [widthCompatB, hts, beq_iff_eq] at hw
            exact hw
          simp only [add_sampling, hts, hlen, hhead]
          rw [if_neg (fun h => h rfl : ¬(1 : Nat) ≠ 1),
            if_neg (Nat.not_le.mpr hnode),
            if_neg (by rw [hb]; exact (fun h => h rfl : ¬b ≠ b))]
          simp only [curTensors, hts]

/-- The incremental-mean step of the running statistics, expressed on the
read-back estimate: valid from any state whose counter is zero while the
estimate is still unset. -/
theorem estimateAt_update (b : Nat) (u : Nat → Nat → ℚ) (s : PRState) (i : Nat)
    (hg : s.global_sampling = none → s.n_samplings = 0) :
    estimateAt (update_global_sampling b u s) i
      = estimateAt s i
          + (1 / ((s.n_samplings : ℚ) + 1)) * (meanUsage b u i - estimateAt s i) := by
  cases hgl : s.global_sampling with
  | none =>
      have h0 := hg hgl
      simp only [update_global_sampling, estimateAt, hgl, h0, Nat.cast_zero]
      norm_num
  | some gl =>
      simp only [update_global_sampling, estimateAt, hgl]

/-- C2 (amended): for a node with no predecessors and a decision vector
with nonnegative entries, `record_decision` succeeds and the node's own
diagonal entry of its pruned row becomes the boolean cast of the decision,
at every batch element whose prior diagonal entry is nonnegative (as holds
in every reachable state, where active entries are 0 or 1). -/
theorem source_self_activation (g : Graph) (node k b : Nat) (d : PyTensor)
    (s : PRState)
    (hpred : g.preds node = [])
    (hnode : node < g.n)
    (hsh : squeezedShape d.shape = [b])
    (hw : widthCompatB s b = true)
    (hpos : 0 ≤ activeEntry s node node k)
    (hd : 0 ≤ dVec d k) :
    isOkE (add_sampling g node d s) = true ∧
    activeEntry (okState (add_sampling g node d s)) node node k
      = (if dVec d k = 0 then 0 else 1) := by
  rw [add_sampling_ok g node d s b hsh hnode hw]
  refine ⟨rfl, ?_⟩
  have hinit := initializedB_of_widthCompatB s b hw
  have ha : (curTensors s b).active node node k = activeEntry s node node k :=
    curTensors_active s b hinit node node k
  show (sampleCore g node (dVec d) (curTensors s b)).active node node k = _
  simp only [sampleCore, eq_self_iff_true, ite_true]
  simp only [finalRow, eq_self_iff_true, ite_true]
  by_cases hdk : dVec d k = 0
  · have hout : hasOutputs g node (dVec d) (curTensors s b).active k = 0 := by
      rw [hasOutputs, hdk, mul_zero]
      simp only [ne_eq, not_true_eq_false, ite_false]
    rw [hout, mul_zero, if_pos hdk]
    simp only [ne_eq, not_true_eq_false, ite_false]
  · have hdpos : 0 < dVec d k := lt_of_le_of_ne hd (Ne.symm hdk)
    have hincpos :
        0 < incomingAfterPreds g node (dVec d) (curTensors s b).active node k := by
      rw [incomingAfterPreds_source g node (dVec d) _ hpred, if_pos rfl, ha]
      linarith
    have hmax : 0 < maxOver g.n
        (fun j => incomingAfterPreds g node (dVec d) (curTensors s b).active j k) := by
      refine lt_of_lt_of_le hincpos ?_
      rw [maxOver]
      exact le_maxOverAux _ (g.n - 1) node (by omega)
    have hout : hasOutputs g node (dVec d) (curTensors s b).active k = 1 := by
      rw [hasOutputs]
      exact if_pos (mul_pos hmax hdpos).ne'
    rw [hout, mul_one, if_neg hdk,
      incomingAfterPreds_source g node (dVec d) _ hpred, if_pos rfl, ha]
    refine if_pos ?_
    have : 0 < activeEntry s node node k + dVec d k + dVec d k := by linarith
    exact this.ne'

/-- C2 counterexample: on the two-node graph, recording the negative
decision `[-1]` for the source node 0 in a fresh iteration leaves its own
pruned entry at 0, although the decision cast to boolean is 1 — the claim
fails for decision vectors that are not nonnegative. -/
theorem source_self_activation_cex :
    g2.preds 0 = [] ∧
    dVec ⟨[1], [-1]⟩ 0 ≠ 0 ∧
    isOkE (add_sampling g2 0 ⟨[1], [-1]⟩
      (okState (new_iteration g2 none initState))) = true ∧
    activeEntry (okState (add_sampling g2 0 ⟨[1], [-1]⟩
      (okState (new_iteration g2 none initState)))) 0 0 0 = 0 := by
  refine ⟨rfl, by norm_num [dVec], rfl, ?_⟩
  norm_num [g2, new_iteration, initState, okState, add_sampling, squeezedShape,
    sampleCore, curTensors, activeEntry, finalRow, hasOutputs, incomingAfterPreds,
    maxOver, maxOverAux, dVec]

/-- Witness for C2 at the source node of the two-node chain with decision
`[2]` in a fresh iteration: the diagonal pruned entry becomes 1. -/
theorem source_self_activation_witness :
    isOkE (add_sampling g2 0 ⟨[1], [2]⟩
      (okState (new_iteration g2 none initState))) = true ∧
    activeEntry (okState (add_sampling g2 0 ⟨[1], [2]⟩
      (okState (new_iteration g2 none initState)))) 0 0 0
      = (if dVec ⟨[1], [2]⟩ 0 = 0 then 0 else 1) :=
  source_self_activation g2 0 0 1 ⟨[1], [2]⟩
    (okState (new_iteration g2 none initState))
    rfl (by norm_num [g2]) rfl rfl
    (by norm_num [activeEntry, okState, new_iteration, initState])
    (by norm_num [dVec])

/-- C3 (amended): for a node with at least one predecessor whose own
active row is still zero at batch element `k` (as holds while the node has
not yet been recorded in the current iteration), if every predecessor's
active row is entirely zero at `k` then after `record_decision` the node's
entire pruned row is zero at `k`, even when the decision there is
non-zero. -/
theorem downstream_pruning (g : Graph) (node k b : Nat) (d : PyTensor)
    (s : PRState)
    (hpred : g.preds node ≠ [])
    (hnode : node < g.n)
    (hsh : squeezedShape d.shape = [b])
    (hw : widthCompatB s b = true)
    (hself : ∀ j < g.n, activeEntry s node j k = 0)
    (hpreds : ∀ p ∈ g.preds node, ∀ j < g.n, activeEntry s p j k = 0) :
    isOkE (add_sampling g node d s) = true ∧
    ∀ j, activeEntry (okState (add_sampling g node d s)) node j k = 0 := by
  rw [add_sampling_ok g node d s b hsh hnode hw]
  refine ⟨rfl, fun j => ?_⟩
  have hinit := initializedB_of_widthCompatB s b hw
  have hinc : ∀ j' < g.n,
      incomingAfterPreds g node (dVec d) (curTensors s b).active j' k = 0 := by
    intro j' hj'
    refine incomingAfterPreds_zero g node (dVec d) _ j' k hpred ?_ ?_
    · rw [curTensors_active s b hinit node j' k]
      exact hself j' hj'
    · intro p hp
      rw [curTensors_active s b hinit p j' k]
      exact hpreds p hp j' hj'
  have hout : hasOutputs g node (dVec d) (curTensors s b).active k = 0 := by
    rw [hasOutputs, maxOver,
      maxOverAux_eq_zero _ _ (fun j' hj' => hinc j' (by omega)), zero_mul]
    simp only [ne_eq, not_true_eq_false, ite_false]
  show (sampleCore g node (dVec d) (curTensors s b)).active node j k = 0
  simp only [sampleCore, eq_self_iff_true, ite_true]
  simp only [finalRow]
  rw [hout, mul_zero]
  simp only [ne_eq, not_true_eq_false, ite_false]

/-- C3 counterexample: on the chain 0 → 1, after recording node 0 on,
node 1 on, and node 0 off again, every active row of the only predecessor
(node 0) is entirely zero at batch element 0, yet recording decision `[1]`
for node 1 leaves node 1's pruned row non-zero there — the claim fails
when the node's own row still carries stale support from an earlier
recording in the same iteration. -/
theorem downstream_pruning_cex :
    g2.preds 1 = [0] ∧
    (∀ j < 2, activeEntry doubleRecState 0 j 0 = 0) ∧
    dVec ⟨[1], [1]⟩ 0 ≠ 0 ∧
    isOkE (add_sampling g2 1 ⟨[1], [1]⟩ doubleRecState) = true ∧
    activeEntry (okState (add_sampling g2 1 ⟨[1], [1]⟩ doubleRecState)) 1 0 0 = 1 := by
  refine ⟨rfl, ?_, by norm_num [dVec], rfl, ?_⟩
  · intro j hj
    interval_cases j <;>
      norm_num [doubleRecState, g2, new_iteration, initState, okState, add_sampling,
        squeezedShape, sampleCore, curTensors, activeEntry, finalRow, hasOutputs,
        incomingAfterPreds, maxOver, maxOverAux, dVec]
  · norm_num [doubleRecState, g2, new_iteration, initState, okState, add_sampling,
      squeezedShape, sampleCore, curTensors, activeEntry, finalRow, hasOutputs,
      incomingAfterPreds, maxOver, maxOverAux, dVec]

/-- Witness for C3 at the pruned-path scenario: on the chain 0 → 1 with
node 0 recorded off, recording decision `[1]` for node 1 yields an
all-zero pruned row for node 1. -/
theorem downstream_pruning_witness :
    isOkE (add_sampling g2 1 ⟨[1], [1]⟩
      (okState (add_sampling g2 0 ⟨[1], [0]⟩
        (okState (new_iteration g2 none initState))))) = true ∧
    ∀ j, activeEntry (okState (add_sampling g2 1 ⟨[1], [1]⟩
      (okState (add_sampling g2 0 ⟨[1], [0]⟩
        (okState (new_iteration g2 none initState)))))) 1 j 0 = 0 :=
  downstream_pruning g2 1 0 1 ⟨[1], [1]⟩
    (okState (add_sampling g2 0 ⟨[1], [0]⟩
      (okState (new_iteration g2 none initState))))
    (by norm_num [g2]) (by norm_num [g2]) rfl rfl
    (by
      intro j hj
      simp only [g2] at hj
      interval_cases j <;>
        norm_num [g2, new_iteration, initState, okState, add_sampling, squeezedShape,
          sampleCore, curTensors, activeEntry, finalRow, hasOutputs, incomingAfterPreds,
          maxOver, maxOverAux, dVec])
    (by
      intro p hp j hj
      simp only [g2] at hj
      norm_num [g2] at hp
      subst hp
      interval_cases j <;>
        norm_num [g2, new_iteration, initState, okState, add_sampling, squeezedShape,
          sampleCore, curTensors, activeEntry, finalRow, hasOutputs, incomingAfterPreds,
          maxOver, maxOverAux, dVec])

/-- An empty-buffer state has `tensors = some none`. -/
theorem tensors_of_isEmptyT (s : PRState) (h : isEmptyT s = true) :
    s.tensors = some none := by
  cases hts : s.tensors with
  | none =>
      simp only [isEmptyT, hts] at h
      exact Bool.noConfusion h
  | some t? =>
      cases t? with
      | none => rfl
      | some ts =>
          simp only [isEmptyT, hts] at h
          exact Bool.noConfusion h

/-- With any started iteration, `add_sampling` never raises the
`NotInitialized` error. -/
theorem add_sampling_not_notInitialized (g : Graph) (node : Nat) (d : PyTensor)
    (s : PRState) (t? : Option Tensors) (hts : s.tensors = some t?) :
    errOf (add_sampling g node d s) ≠ some Err.notInitialized := by
  cases t? with
  | none =>
      simp only [add_sampling, hts]
      by_cases h1 : (squeezedShape d.shape).length ≠ 1
      · rw [if_pos h1]
        simp [errOf]
      · rw [if_neg h1]
        by_cases h2 : g.n ≤ node
        · rw [if_pos h2]
          simp [errOf]
        · rw [if_neg h2]
          simp [errOf]
  | some ts =>
      simp only [add_sampling, hts]
      by_cases h1 : (squeezedShape d.shape).length ≠ 1
      · rw [if_pos h1]
        simp [errOf]
      · rw [if_neg h1]
        by_cases h2 : g.n ≤ node
        · rw [if_pos h2]
          simp [errOf]
        · rw [if_neg h2]
          by_cases h3 : ts.b ≠ (squeezedShape d.shape).headD 0
          · rw [if_pos h3]
            simp [errOf]
          · rw [if_neg h3]
            simp [errOf]

/-- With any started iteration and a one-dimensional squeezed decision,
`add_sampling` never raises the `InvalidShape` error. -/
theorem add_sampling_not_invalidShape (g : Graph) (node : Nat) (d : PyTensor)
    (s : PRState) (t? : Option Tensors) (hts : s.tensors = some t?)
    (hlen : (squeezedShape d.shape).length = 1) :
    errOf (add_sampling g node d s) ≠ some Err.invalidShape := by
  cases t? with
  | none =>
      simp only [add_sampling, hts]
      rw [if_neg (by rw [hlen]; exact fun hh => hh rfl)]
      by_cases h2 : g.n ≤ node
      · rw [if_pos h2]
        simp [errOf]
      · rw [if_neg h2]
        simp [errOf]
  | some ts =>
      simp only [add_sampling, hts]
      rw [if_neg (by rw [hlen]; exact fun hh => hh rfl)]
      by_cases h2 : g.n ≤ node
      · rw [if_pos h2]
        simp [errOf]
      · rw [if_neg h2]
        by_cases h3 : ts.b ≠ (squeezedShape d.shape).headD 0
        · rw [if_pos h3]
          simp [errOf]
        · rw [if_neg h3]
          simp [errOf]

/-- C4 (amended): `start_iteration` feeds the previous iteration's pruned
row of the configured default output node into the running statistics
exactly when a default output is configured and the previous iteration
recorded at least one decision, and then resets the buffers; when no
default output is configured or no iteration ever started it only resets;
but when a default output is configured and an iteration was started with
no decision recorded, the call fails indexing the empty tensor and resets
nothing. -/
theorem new_iteration_spec (g : Graph) (dflt : Option Nat) (s : PRState)
    (hg : s.global_sampling = none → s.n_samplings = 0) :
    ((dflt = none ∨ s.tensors = none) →
        new_iteration g dflt s = .ok { s with tensors := some none }) ∧
    (∀ o, dflt = some o → o < g.n → isEmptyT s = true →
        errOf (new_iteration g dflt s) = some .indexError) ∧
    (∀ o, dflt = some o → o < g.n → isAllocated s = true →
        isOkE (new_iteration g dflt s) = true ∧
        (okState (new_iteration g dflt s)).tensors = some none ∧
        (okState (new_iteration g dflt s)).n_samplings = s.n_samplings + 1 ∧
        ∀ i, estimateAt (okState (new_iteration g dflt s)) i
          = estimateAt s i + (1 / ((s.n_samplings : ℚ) + 1))
              * (meanUsage (widthOf s) (fun j k => activeEntry s o j k) i
                  - estimateAt s i)) := by
  refine ⟨?_, ?_, ?_⟩
  · rintro (rfl | hts)
    · rfl
    · cases dflt with
      | none => rfl
      | some o => simp only [new_iteration, hts]
  · rintro o rfl hlt hempty
    have hts := tensors_of_isEmptyT s hempty
    simp only [new_iteration, hts]
    rw [if_neg (Nat.not_le.mpr hlt)]
    rfl
  · rintro o rfl hlt halloc
    cases hts : s.tensors with
    | none =>
        simp only [isAllocated, hts] at halloc
        exact Bool.noConfusion halloc
    | some t? =>
        cases t? with
        | none =>
            simp only [isAllocated, hts] at halloc
            exact Bool.noConfusion halloc
        | some ts =>
            have hok : new_iteration g (some o) s
                = .ok { update_global_sampling ts.b (fun j k => ts.active o j k) s with
                          tensors := some none } := by
              simp only [new_iteration, hts]
              rw [if_neg (Nat.not_le.mpr hlt)]
            rw [hok]
            refine ⟨rfl, rfl, rfl, fun i => ?_⟩
            have hfun : (fun j k => activeEntry s o j k)
                = (fun j k => ts.active o j k) := by
              funext j k
              simp only [activeEntry, hts]
            have hwd : widthOf s = ts.b := by
              simp only [widthOf, hts]
            rw [hwd, hfun]
            exact estimateAt_update ts.b (fun j k => ts.active o j k) s i hg

/-- C4 counterexample: with a configured default output node, starting an
iteration and then immediately starting another (no decision recorded in
between) does not silently skip the statistics update — the second call
fails indexing the empty active tensor, so the buffers are not reset
either. -/
theorem new_iteration_spec_cex :
    isEmptyT (okState (new_iteration g2 (some 0) initState)) = true ∧
    errOf (new_iteration g2 (some 0) (okState (new_iteration g2 (some 0) initState)))
      = some .indexError :=
  ⟨rfl, rfl⟩

/-- Witness for C4 at a one-decision iteration on the two-node chain with
default output node 0: the next `start_iteration` succeeds, bumps the
update counter to 1 and sets the estimate of node 0 to its batch mean 1. -/
theorem new_iteration_spec_witness :
    isOkE (new_iteration g2 (some 0) (okState (add_sampling g2 0 ⟨[1], [1]⟩
      (okState (new_iteration g2 (some 0) initState))))) = true ∧
    (okState (new_iteration g2 (some 0) (okState (add_sampling g2 0 ⟨[1], [1]⟩
      (okState (new_iteration g2 (some 0) initState)))))).n_samplings = 1 ∧
    estimateAt (okState (new_iteration g2 (some 0) (okState (add_sampling g2 0 ⟨[1], [1]⟩
      (okState (new_iteration g2 (some 0) initState)))))) 0 = 1 := by
  have h := (new_iteration_spec g2 (some 0)
    (okState (add_sampling g2 0 ⟨[1], [1]⟩
      (okState (new_iteration g2 (some 0) initState)))) (fun _ => rfl)).2.2
    0 rfl (by norm_num [g2]) rfl
  refine ⟨h.1, ?_, ?_⟩
  · rw [h.2.2.1]
    rfl
  · rw [h.2.2.2 0]
    norm_num [g2, new_iteration, initState, okState, add_sampling, squeezedShape,
      sampleCore, curTensors, activeEntry, finalRow, hasOutputs, incomingAfterPreds,
      maxOver, maxOverAux, dVec, estimateAt, widthOf, meanUsage, List.range_succ]

/-- C5: `record_decision` fails with the `NotInitialized` error exactly
when it is called before `start_iteration` has ever run (the active tensor
still unset from construction); the check precedes every buffer write, so
a failing call leaves the tracker state untouched. -/
theorem not_initialized_iff (g : Graph) (node : Nat) (d : PyTensor) (s : PRState) :
    errOf (add_sampling g node d s) = some .notInitialized
      ↔ initializedB s = false := by
  cases hts : s.tensors with
  | none => simp only [add_sampling, hts, errOf, initializedB]
  | some t? =>
      constructor
      · intro h
        exact absurd h (add_sampling_not_notInitialized g node d s t? hts)
      · intro h
        simp only [initializedB, hts] at h
        exact Bool.noConfusion h

/-- C6 (amended): once `start_iteration` has run, `record_decision`
accepts a flat per-batch vector or a scalar promoted to length 1, and
fails with the `InvalidShape` error exactly when the decision has more
than one non-trivial dimension after squeezing; a valid first decision of
an iteration fixes the batch width and allocates the active and sampling
tensors zero-filled outside the recorded node's rows.  (Before any
iteration has started, the `NotInitialized` check fires first, so the
shape equivalence needs the initialization hypothesis.) -/
theorem invalid_shape_spec (g : Graph) (node : Nat) (d : PyTensor) (s : PRState)
    (hinit : initializedB s = true) :
    (errOf (add_sampling g node d s) = some .invalidShape
        ↔ 1 < (d.shape.filter (fun m => m != 1)).length) ∧
    (∀ b, isEmptyT s = true → squeezedShape d.shape = [b] → node < g.n →
        isOkE (add_sampling g node d s) = true ∧
        widthOf (okState (add_sampling g node d s)) = b ∧
        (∀ i j k, i ≠ node → activeEntry (okState (add_sampling g node d s)) i j k = 0) ∧
        (∀ i k, i ≠ node → samplingEntry (okState (add_sampling g node d s)) i k = 0)) := by
  constructor
  · cases hts : s.tensors with
    | none =>
        simp only [initializedB, hts] at hinit
        exact Bool.noConfusion hinit
    | some t? =>
        have hne : (squeezedShape d.shape).length = 1 →
            errOf (add_sampling g node d s) ≠ some Err.invalidShape :=
          fun hlen => add_sampling_not_invalidShape g node d s t? hts hlen
        by_cases hfl : d.shape.filter (fun m => m != 1) = []
        · have hlen : (squeezedShape d.shape).length = 1 := by
            rw [squeezedShape, if_pos hfl]
            rfl
          rw [hfl]
          exact iff_of_false (hne hlen) (by norm_num)
        · by_cases h1 : (d.shape.filter (fun m => m != 1)).length = 1
          · have hlen : (squeezedShape d.shape).length = 1 := by
              rw [squeezedShape, if_neg hfl]
              exact h1
            exact iff_of_false (hne hlen) (by omega)
          · have hgt : 1 < (d.shape.filter (fun m => m != 1)).length := by
              have h0 : (d.shape.filter (fun m => m != 1)).length ≠ 0 :=
                fun hh => hfl (List.length_eq_zero.mp hh)
              omega
            have hlen : (squeezedShape d.shape).length ≠ 1 := by
              rw [squeezedShape, if_neg hfl]
              exact h1
            refine iff_of_true ?_ hgt
            simp only [add_sampling, hts]
            rw [if_pos hlen]
            rfl
  · intro b hempty hsh hnode
    have hts := tensors_of_isEmptyT s hempty
    have hw : widthCompatB s b = true := by
      simp only [widthCompatB, hts]
    rw [add_sampling_ok g node d s b hsh hnode hw]
    refine ⟨rfl, ?_, ?_, ?_⟩
    · show (sampleCore g node (dVec d) (curTensors s b)).b = b
      simp only [sampleCore, curTensors, hts]
    · intro i j k hi
      show (sampleCore g node (dVec d) (curTensors s b)).active i j k = 0
      simp only [sampleCore, curTensors, hts, if_neg hi]
    · intro i k hi
      show (sampleCore g node (dVec d) (curTensors s b)).sampling i k = 0
      simp only [sampleCore, curTensors, hts, if_neg hi]

/-- C6 counterexample: before any `start_iteration`, a decision with two
non-trivial dimensions fails with `NotInitialized`, not with
`InvalidShape` — the shape equivalence does not hold unconditionally. -/
theorem invalid_shape_spec_cex :
    1 < (([2, 2] : List Nat).filter (fun m => m != 1)).length ∧
    errOf (add_sampling g2 0 ⟨[2, 2], [1, 1, 1, 1]⟩ initState)
      = some .notInitialized ∧
    errOf (add_sampling g2 0 ⟨[2, 2], [1, 1, 1, 1]⟩ initState)
      ≠ some .invalidShape := by
  refine ⟨by norm_num, rfl, ?_⟩
  simp [add_sampling, initState, errOf]

/-- Witness for C6 at a fresh iteration on the two-node chain with the
flat decision `[5]`: the call succeeds, fixes batch width 1 and leaves the
other node's rows zero-filled. -/
theorem invalid_shape_spec_witness :
    isOkE (add_sampling g2 0 ⟨[1], [5]⟩
      (okState (new_iteration g2 none initState))) = true ∧
    widthOf (okState (add_sampling g2 0 ⟨[1], [5]⟩
      (okState (new_iteration g2 none initState)))) = 1 ∧
    activeEntry (okState (add_sampling g2 0 ⟨[1], [5]⟩
      (okState (new_iteration g2 none initState)))) 1 0 0 = 0 ∧
    samplingEntry (okState (add_sampling g2 0 ⟨[1], [5]⟩
      (okState (new_iteration g2 none initState)))) 1 0 = 0 := by
  have h := (invalid_shape_spec g2 0 ⟨[1], [5]⟩
    (okState (new_iteration g2 none initState)) rfl).2 1 rfl rfl (by norm_num [g2])
  exact ⟨h.1, h.2.1, h.2.2.1 1 0 0 (by norm_num), h.2.2.2 1 0 (by norm_num)⟩

/-- C7: a successful `graph_paths` call triggers exactly one running
statistics update with the current pruned tensor of the output node — the
update counter rises by one and the batch mean is folded into the
estimate with the incremental-mean step — while the active and sampling
buffers are left untouched. -/
theorem graph_paths_effect (g : Graph) (out : Nat) (s : PRState)
    (hout : out < g.n) (halloc : isAllocated s = true)
    (hg : s.global_sampling = none → s.n_samplings = 0) :
    isOkGP (get_graph_paths g out s) = true ∧
    (gpState (get_graph_paths g out s)).tensors = s.tensors ∧
    (gpState (get_graph_paths g out s)).n_samplings = s.n_samplings + 1 ∧
    ∀ i, estimateAt (gpState (get_graph_paths g out s)) i
      = estimateAt s i + (1 / ((s.n_samplings : ℚ) + 1))
          * (meanUsage (widthOf s) (fun j k => activeEntry s out j k) i
              - estimateAt s i) := by
  cases hts : s.tensors with
  | none =>
      simp only [isAllocated, hts] at halloc
      exact Bool.noConfusion halloc
  | some t? =>
      cases t? with
      | none =>
          simp only [isAllocated, hts] at halloc
          exact Bool.noConfusion halloc
      | some ts =>
          have hok : get_graph_paths g out s
              = .ok (((List.range ts.b).map
                        (fun k => (List.range g.n).filter
                          (fun j => ts.active out j k == 1)),
                      (List.range ts.b).map
                        (fun k => (List.range g.n).map
                          (fun j => (j, ts.sampling j k)))),
                     update_global_sampling ts.b (fun j k => ts.active out j k) s) := by
            simp only [get_graph_paths, hts]
            rw [if_neg (Nat.not_le.mpr hout)]
          rw [hok]
          refine ⟨rfl, hts, rfl, fun i => ?_⟩
          have hfun : (fun j k => activeEntry s out j k)
              = (fun j k => ts.active out j k) := by
            funext j k
            simp only [activeEntry, hts]
          have hwd : widthOf s = ts.b := by
            simp only [widthOf, hts]
          rw [hwd, hfun]
          exact estimateAt_update ts.b (fun j k => ts.active out j k) s i hg

/-- Witness for C7 at the end-to-end chain state: querying the paths for
output node 2 bumps the update counter to 1 and folds the all-ones pruned
row into the estimate, giving estimate 1 at node 0. -/
theorem graph_paths_effect_witness :
    isOkGP (get_graph_paths g3 2 chainState) = true ∧
    (gpState (get_graph_paths g3 2 chainState)).n_samplings = 1 ∧
    estimateAt (gpState (get_graph_paths g3 2 chainState)) 0 = 1 := by
  have h := graph_paths_effect g3 2 chainState (by norm_num [g3]) rfl (fun _ => rfl)
  refine ⟨h.1, ?_, ?_⟩
  · rw [h.2.2.1]
    rfl
  · rw [h.2.2.2 0]
    norm_num [chainState, g3, new_iteration, initState, okState, add_sampling,
      squeezedShape, sampleCore, curTensors, activeEntry, finalRow, hasOutputs,
      incomingAfterPreds, maxOver, maxOverAux, dVec, estimateAt, widthOf, meanUsage,
      List.range_succ]

/-- C8: on the chain 0 → 1 → 2 with batch width 1 and decisions `[1]`,
`[1]`, `[1]` recorded in topological order, the pruned architecture of
node 2 is all-ones over the three nodes, and `graph_paths(2)` returns the
single path `[0, 1, 2]` together with the per-node raw sampling mapping
`0 ↦ 1, 1 ↦ 1, 2 ↦ 1`. -/
theorem end_to_end_chain :
    (∀ j < 3, prunedValAt g3 2 chainState j 0 = 1) ∧
    gpLists (get_graph_paths g3 2 chainState)
      = ([[0, 1, 2]], [[(0, 1), (1, 1), (2, 1)]]) := by
  constructor
  · intro j hj
    interval_cases j <;>
      norm_num [chainState, g3, new_iteration, initState, okState, add_sampling,
        squeezedShape, sampleCore, curTensors, activeEntry, finalRow, hasOutputs,
        incomingAfterPreds, maxOver, maxOverAux, dVec, prunedValAt, prunedRowE]
  · norm_num [chainState, g3, new_iteration, initState, okState, add_sampling,
      squeezedShape, sampleCore, curTensors, activeEntry, finalRow, hasOutputs,
      incomingAfterPreds, maxOver, maxOverAux, dVec, gpLists, get_graph_paths,
      List.range_succ, List.filter, beq_iff_eq]

/-- C9: `pruned_architecture` and `sampled_architectures` are pure reads:
re-running either on the state it hands back yields the identical result,
and the state each call hands back is the input state itself. -/
theorem requery_idempotent (g : Graph) (out : Nat) (s : PRState) :
    (get_pruned_architecture g out s).2 = s ∧
    get_pruned_architecture g out (get_pruned_architecture g out s).2
      = get_pruned_architecture g out s ∧
    (get_sampled_architectures s).2 = s ∧
    get_sampled_architectures (get_sampled_architectures s).2
      = get_sampled_architectures s :=
  ⟨rfl, rfl, rfl, rfl⟩

/-- A successful `add_sampling` leaves the statistics untouched and turns
the buffers into exactly the `sampleCore` update of the current buffers,
for some accepted batch width. -/
theorem add_sampling_ok_inv (g : Graph) (node : Nat) (d : PyTensor)
    (s s2 : PRState) (h : add_sampling g node d s = .ok s2) :
    s2.global_sampling = s.global_sampling ∧ s2.n_samplings = s.n_samplings ∧
    ∃ b, widthCompatB s b = true ∧
      s2.tensors = some (some (sampleCore g node (dVec d) (curTensors s b))) := by
  cases hts : s.tensors with
  | none =>
      simp only [add_sampling, hts] at h
      exact Except.noConfusion h
  | some t? =>
      cases t? with
      | none =>
          simp only [add_sampling, hts] at h
          by_cases h1 : (squeezedShape d.shape).length ≠ 1
          · rw [if_pos h1] at h
            exact Except.noConfusion h
          · rw [if_neg h1] at h
            by_cases h2 : g.n ≤ node
            · rw [if_pos h2] at h
              exact Except.noConfusion h
            · rw [if_neg h2] at h
              injection h with hh
              subst hh
              refine ⟨rfl, rfl, (squeezedShape d.shape).headD 0, ?_, ?_⟩
              · simp only [widthCompatB, hts]
              · simp only [curTensors, hts]
      | some ts =>
          simp only [add_sampling, hts] at h
          by_cases h1 : (squeezedShape d.shape).length ≠ 1
          · rw [if_pos h1] at h
            exact Except.noConfusion h
          · rw [if_neg h1] at h
            by_cases h2 : g.n ≤ node
            · rw [if_pos h2] at h
              exact Except.noConfusion h
            · rw [if_neg h2] at h
              by_cases h3 : ts.b ≠ (squeezedShape d.shape).headD 0
              · rw [if_pos h3] at h
                exact Except.noConfusion h
              · rw [if_neg h3] at h
                injection h with hh
                subst hh
                refine ⟨rfl, rfl, ts.b, ?_, ?_⟩
                · simp only [widthCompatB, hts, beq_self_eq_true]
                · simp only [curTensors, hts]

/-- A successful `start_iteration` always leaves the buffers reset to the
empty tensors. -/
theorem new_iteration_ok_tensors (g : Graph) (dflt : Option Nat)
    (s s2 : PRState) (h : new_iteration g dflt s = .ok s2) :
    s2.tensors = some none := by
  cases dflt with
  | none =>
      simp only [new_iteration] at h
      injection h with hh
      subst hh
      rfl
  | some o =>
      cases hts : s.tensors with
      | none =>
          simp only [new_iteration, hts] at h
          injection h with hh
          subst hh
          rfl
      | some t? =>
          cases t? with
          | none =>
              simp only [new_iteration, hts] at h
              split_ifs at h
          | some ts =>
              simp only [new_iteration, hts] at h
              by_cases h2 : g.n ≤ o
              · rw [if_pos h2] at h
                exact Except.noConfusion h
              · rw [if_neg h2] at h
                injection h with hh
                subst hh
                rfl

/-- A successful `graph_paths` call leaves the buffers untouched. -/
theorem get_graph_paths_ok_tensors (g : Graph) (out : Nat) (s : PRState)
    (r : (List (List Nat) × List (List (Nat × ℚ))) × PRState)
    (h : get_graph_paths g out s = .ok r) : r.2.tensors = s.tensors := by
  simp only [get_graph_paths] at h
  by_cases h1 : g.n ≤ out
  · rw [if_pos h1] at h
    exact Except.noConfusion h
  · rw [if_neg h1] at h
    cases hts : s.tensors with
    | none =>
        rw [hts] at h
        exact Except.noConfusion h
    | some t? =>
        cases t? with
        | none =>
            rw [hts] at h
            exact Except.noConfusion h
        | some ts =>
            rw [hts] at h
            injection h with hh
            subst hh
            exact hts

/-- C10: in every reachable tracker state, every in-range entry of the
active tensor is exactly 0.0 or 1.0 — the tensor is allocated zero-filled,
every successful `record_decision` writes its row back only after the
boolean cast, and the other operations reset or keep the buffers. -/
theorem active_entries_boolean (g : Graph) (dflt : Option Nat) (s : PRState)
    (h : Reachable g dflt s) : ActiveBool g s := by
  induction h with
  | init =>
      intro i hi j hj k hk
      left
      rfl
  | step_new s s2 hr hok ih =>
      have ht := new_iteration_ok_tensors g dflt s s2 hok
      intro i hi j hj k hk
      left
      simp only [activeEntry, ht]
  | step_add s s2 node d hr hok ih =>
      obtain ⟨-, -, b, hw, ht⟩ := add_sampling_ok_inv g node d s s2 hok
      intro i hi j hj k hk
      have hval : activeEntry s2 i j k
          = (sampleCore g node (dVec d) (curTensors s b)).active i j k := by
        simp only [activeEntry, ht]
      rw [hval]
      simp only [sampleCore]
      by_cases hin : i = node
      · rw [if_pos hin]
        simp only [finalRow]
        exact Or.symm (ite_eq_or_eq _ _ _)
      · rw [if_neg hin]
        cases hts : s.tensors with
        | none =>
            simp only [widthCompatB, hts] at hw
            exact Bool.noConfusion hw
        | some t? =>
            cases t? with
            | none =>
                left
                simp only [curTensors, hts]
            | some ts =>
                have hcur : (curTensors s b).active i j k = activeEntry s i j k :=
                  curTensors_active s b (initializedB_of_widthCompatB s b hw) i j k
                have hwidth : widthOf s2 = widthOf s := by
                  simp only [widthOf, ht, sampleCore, curTensors, hts]
                rw [hcur]
                exact ih i hi j hj k (hwidth ▸ hk)
  | step_paths s out r hr hok ih =>
      have ht := get_graph_paths_ok_tensors g out s r hok
      intro i hi j hj k hk
      have he : activeEntry r.2 i j k = activeEntry s i j k := by
        simp only [activeEntry, ht]
      have hwd : widthOf r.2 = widthOf s := by
        simp only [widthOf, ht]
      rw [he]
      exact ih i hi j hj k (hwd ▸ hk)

/-- Witness for C10 at a concrete reachable state: one started iteration
on the two-node chain with node 0 recorded on. -/
theorem active_entries_boolean_witness :
    ActiveBool g2 (okState (add_sampling g2 0 ⟨[1], [1]⟩
      (okState (new_iteration g2 none initState)))) := by
  apply active_entries_boolean g2 none
  refine Reachable.step_add (okState (new_iteration g2 none initState)) _ 0 ⟨[1], [1]⟩ ?_ rfl
  exact Reachable.step_new initState _ Reachable.init rfl

end BSN
